import Mathlib

set_option maxRecDepth 10000

/-!
Verification of the chess repository's move logic.

The definitions below are a shallow embedding of the three source files:

* `chess_rules_light.py` — the hand-rolled "light rules" variant: the
  board representation, `start_position`, `in_bounds`, `is_path_clear`,
  `legal_move_basic`, and the move-execution step of its `main` loop.
* `chess.py` — the naive variant with no rule enforcement: `try_move`.
* `chess_engine.py` — the variant that delegates all rules to the external
  python-chess library: `attempt_move`, embedded with the library's board
  type, legality test and `push` as abstract parameters (the library is not
  part of this repository).

Piece codes such as "wp" or "bq" are embedded as a `Piece` structure holding
the two characters (side, kind).  A board is a total function from integer
coordinates to an optional piece; the concrete boards built with
`board_of_rows` hold `none` outside the 8 times 8 range, mirroring the
source's 8x8 list-of-lists.

The Python `while` loop of `is_path_clear` is embedded with an explicit
fuel parameter and an `Option Bool` result: `none` models the runs the
Python loop would not complete normally (stepping off the board raises an
IndexError there).  Fuel 16 exceeds the length of any walk that stays on
the 8x8 board, so `some v` certifies that the loop terminated having
indexed only in-bounds squares.
-/

namespace Chess

/-- Side of a piece: the first character of a code such as "wp" or "bq". -/
inductive Side : Type
  | w
  | b
deriving DecidableEq, Repr

/-- Kind of a piece: the second character of a code ('p','r','n','b','q','k'). -/
inductive Kind : Type
  | p
  | r
  | n
  | b
  | q
  | k
deriving DecidableEq, Repr

/-- A piece code: side character plus kind character. -/
structure Piece where
  side : Side
  kind : Kind
deriving DecidableEq, Repr

/-- The board: row 0 is the top (Black back rank), row 7 the bottom (White
back rank).  Embedded as a total function on integer coordinates; concrete
boards built from row lists hold `none` outside the 8x8 range. -/
abbrev Board := Int → Int → Option Piece

/-- Source `side_of`: first character of the code, `None` for an empty square. -/
def side_of : Option Piece → Option Side
  | some p => some p.side
  | none => none

/-- Source `kind_of`: second character of the code, `None` for an empty square. -/
def kind_of : Option Piece → Option Kind
  | some p => some p.kind
  | none => none

/-- Source `in_bounds(r, c)`: `0 <= r < 8 and 0 <= c < 8`. -/
def in_bounds (r c : Int) : Bool :=
  decide (0 ≤ r ∧ r < 8 ∧ 0 ≤ c ∧ c < 8)

/-- The step computation of `is_path_clear`:
`0 if d == 0 else (1 if d > 0 else -1)`. -/
def step_of (d : Int) : Int :=
  if d = 0 then 0 else if d > 0 then 1 else -1

/-- The `while (r, c) != (r1, c1)` loop of `is_path_clear`, with fuel.
`none` models a run the Python loop would not complete normally (either it
would index off the board or never reach `(r1, c1)`). -/
def is_path_clear_go (board : Board) (r1 c1 step_r step_c : Int) :
    Int → Int → Nat → Option Bool
  | _, _, 0 => none
  | r, c, fuel + 1 =>
    if r = r1 ∧ c = c1 then some true
    else if in_bounds r c then
      if (board r c).isSome then some false
      else is_path_clear_go board r1 c1 step_r step_c (r + step_r) (c + step_c) fuel
    else none

/-- Source `is_path_clear(board, r0, c0, r1, c1)`: walk from the square after
the source toward the destination, failing on any occupied square.  Fuel 16
exceeds the length of any walk that stays on the board. -/
def is_path_clear (board : Board) (r0 c0 r1 c1 : Int) : Option Bool :=
  let step_r := step_of (r1 - r0)
  let step_c := step_of (c1 - c0)
  is_path_clear_go board r1 c1 step_r step_c (r0 + step_r) (c0 + step_c) 16

/-- Source `legal_move_basic(board, src, dst)`: basic piece movement rules
(no checks, no castling, no en passant).  Returns `some b` where the Python
function returns the bool `b`; `none` only if an `is_path_clear` call would
not complete (shown below never to happen on in-bounds arguments). -/
def legal_move_basic (board : Board) (src dst : Int × Int) : Option Bool :=
  let sr := src.1
  let sc := src.2
  let dr := dst.1
  let dc := dst.2
  if in_bounds dr dc then
    match board sr sc with
    | none => some false
    | some piece =>
      let us := piece.side
      let them_piece := board dr dc
      -- "if them_piece and side_of(them_piece) == us: return False"
      if (match them_piece with | some t => decide (t.side = us) | none => false) then
        some false
      else
        let rr := dr - sr
        let cc := dc - sc
        let abs_r := |rr|
        let abs_c := |cc|
        match piece.kind with
        | Kind.n =>
          some (decide ((abs_r, abs_c) = ((1 : Int), (2 : Int)) ∨
            (abs_r, abs_c) = ((2 : Int), (1 : Int))))
        | Kind.k => some (decide (max abs_r abs_c = 1))
        | Kind.r =>
          if rr ≠ 0 ∧ cc ≠ 0 then some false
          else is_path_clear board sr sc dr dc
        | Kind.b =>
          if abs_r ≠ abs_c then some false
          else is_path_clear board sr sc dr dc
        | Kind.q =>
          if rr = 0 ∨ cc = 0 ∨ abs_r = abs_c then is_path_clear board sr sc dr dc
          else some false
        | Kind.p =>
          -- dir_ = -1 if us == 'w' else 1 ; start_row = 6 if us == 'w' else 1
          let dir : Int := if us = Side.w then -1 else 1
          let start_row : Int := if us = Side.w then 6 else 1
          if cc = 0 then
            if rr = dir ∧ board dr dc = none then some true
            else if sr = start_row ∧ rr = 2 * dir ∧
                board (sr + dir) dc = none ∧ board dr dc = none then
              some true
            else some false
          else if abs_c = 1 ∧ rr = dir then some them_piece.isSome
          else some false
  else some false

/-- A row of eight empty squares. -/
def empty_row : List (Option Piece) := List.replicate 8 none

/-- The rows of the source's `start_position()`. -/
def start_rows : List (List (Option Piece)) :=
  [[some ⟨Side.b, Kind.r⟩, some ⟨Side.b, Kind.n⟩, some ⟨Side.b, Kind.b⟩, some ⟨Side.b, Kind.q⟩,
    some ⟨Side.b, Kind.k⟩, some ⟨Side.b, Kind.b⟩, some ⟨Side.b, Kind.n⟩, some ⟨Side.b, Kind.r⟩],
   List.replicate 8 (some ⟨Side.b, Kind.p⟩),
   empty_row, empty_row, empty_row, empty_row,
   List.replicate 8 (some ⟨Side.w, Kind.p⟩),
   [some ⟨Side.w, Kind.r⟩, some ⟨Side.w, Kind.n⟩, some ⟨Side.w, Kind.b⟩, some ⟨Side.w, Kind.q⟩,
    some ⟨Side.w, Kind.k⟩, some ⟨Side.w, Kind.b⟩, some ⟨Side.w, Kind.n⟩, some ⟨Side.w, Kind.r⟩]]

/-- View an 8x8 list-of-rows as a `Board` (squares outside the range hold `none`). -/
def board_of_rows (rows : List (List (Option Piece))) : Board := fun r c =>
  if in_bounds r c then (rows.getD r.toNat []).getD c.toNat none else none

/-- Source `start_position()`. -/
def start_position : Board := board_of_rows start_rows

/-- All 64 in-bounds squares. -/
def square_list : List (Int × Int) :=
  (List.range 8).flatMap fun r => (List.range 8).map fun c => ((r : Int), (c : Int))

/-- Number of pairs (src, dst) of in-bounds squares such that src holds a
White piece and `legal_move_basic start_position src dst` returns true. -/
def white_start_move_count : Nat :=
  (square_list.flatMap fun s => square_list.map fun d => (s, d)).countP fun m =>
    (match start_position m.1.1 m.1.2 with
     | some p => decide (p.side = Side.w)
     | none => false) && decide (legal_move_basic start_position m.1 m.2 = some true)

/-- Pawn direction, the source's `dir_`: White moves up (-1), Black down (+1). -/
def pawn_dir (s : Side) : Int :=
  if s = Side.w then -1 else 1

/-- Pawn starting rank, the source's `start_row`: 6 for White, 1 for Black. -/
def pawn_start_row (s : Side) : Int :=
  if s = Side.w then 6 else 1

/-- The squares strictly between two aligned squares: for
`n = max |r1 - r0| |c1 - c0|` these are the `n - 1` squares stepped over by a
sliding move from `(r0, c0)` to `(r1, c1)`. -/
def path_squares (r0 c0 r1 c1 : Int) : List (Int × Int) :=
  let n := max (r1 - r0).natAbs (c1 - c0).natAbs
  (List.range (n - 1)).map fun (i : Nat) =>
    (r0 + ((i : Int) + 1) * step_of (r1 - r0), c0 + ((i : Int) + 1) * step_of (c1 - c0))

/-- The spec's alignment requirement for sliding pieces: same rank or file
for a rook, same diagonal for a bishop, either for a queen. -/
def slider_aligned (kd : Kind) (src dst : Int × Int) : Prop :=
  match kd with
  | Kind.r => dst.1 = src.1 ∨ dst.2 = src.2
  | Kind.b => |dst.1 - src.1| = |dst.2 - src.2|
  | Kind.q => dst.1 = src.1 ∨ dst.2 = src.2 ∨ |dst.1 - src.1| = |dst.2 - src.2|
  | _ => False

/-- Which of the two displayed boards a click landed on. -/
inductive Panel : Type
  | left
  | right
deriving DecidableEq, Repr

/-- Turn swap: `turn = 'b' if turn == 'w' else 'w'`. -/
def flip_turn : Side → Side
  | Side.w => Side.b
  | Side.b => Side.w

/-- The mutable state of the light-rules variant's `main` loop that the move
logic touches: the board, whose turn it is, and the current selection. -/
structure LightState where
  board : Board
  turn : Side
  selected : Option (Int × Int)

/-- The move-attempt phase of `chess_rules_light.main` (the mouse-click
handling when a square `sel` is already selected and `(r, c)` on panel
`which` is clicked): clicking the selection deselects; a move passing
`legal_move_basic` is executed (destination receives the mover, source is
vacated, turn swaps); otherwise the click may re-select an own piece on the
side's own panel and the board and turn are left alone.  A `none` verdict
from `legal_move_basic` (a run its Python counterpart would not complete) is
grouped with the else-branch; totality below shows it cannot occur. -/
def light_move_click (st : LightState) (sel : Int × Int) (click : Int × Int)
    (which : Panel) : LightState :=
  if click = sel then { st with selected := none }
  else if legal_move_basic st.board sel click = some true then
    let moving := st.board sel.1 sel.2
    { board := fun r c =>
        if (r, c) = sel then none else if (r, c) = click then moving else st.board r c,
      turn := flip_turn st.turn,
      selected := none }
  else
    match st.board click.1 click.2 with
    | some code =>
      if code.side = st.turn ∧
          ((st.turn = Side.w ∧ which = Panel.left) ∨ (st.turn = Side.b ∧ which = Panel.right)) then
        { st with selected := some click }
      else st
    | none => st

/-- The board-and-turn state of `chess.py` (no selection bookkeeping needed:
`try_move` does not touch `selected`). -/
structure SimpleState where
  board : Board
  turn : Side

/-- Source `chess.py` `try_move(src, dst)`: refuses if the source square is
empty, holds the wrong side's piece, or `src == dst`; otherwise moves the
piece unconditionally (no movement rules) and swaps the turn.  Returns the
new state together with the Python return value. -/
def try_move (st : SimpleState) (src dst : Int × Int) : SimpleState × Bool :=
  match st.board src.1 src.2 with
  | none => (st, false)
  | some piece =>
    if piece.side ≠ st.turn ∨ src = dst then (st, false)
    else
      ({ board := fun r c =>
           if (r, c) = src then none else if (r, c) = dst then some piece else st.board r c,
         turn := flip_turn st.turn }, true)

/-- Source `chess_engine.py` `attempt_move(src_sq, dst_sq)`.  The rules live
in the external python-chess library, so the library's board type `B`, move
type `M`, legality test `legal` (membership in `board.legal_moves`), `push`,
and the promotion-candidate block of lines 483-489 (`promote`, which only
builds a replacement move via `piece_at` / `square_rank` and the picker, and
never touches the board) are abstract parameters.  Only the repository's own
control flow is concrete: a move candidate is pushed exactly when it tests
legal, and `False` is returned with the board untouched otherwise. -/
def attempt_move {B M : Type} (legal : B → M → Bool) (push : B → M → B)
    (promote : B → M → M) (board : B) (move : M) : B × Bool :=
  let move := if legal board move then move else promote board move
  if legal board move then (push board move, true) else (board, false)

/-- A board holding only a White rook on a8 (square (0,0)) and the Black
king on f8 (square (0,5)): the light rules let the rook capture the king. -/
def king_capture_board : Board := board_of_rows
  [[some ⟨Side.w, Kind.r⟩, none, none, none, none, some ⟨Side.b, Kind.k⟩, none, none],
   empty_row, empty_row, empty_row, empty_row, empty_row, empty_row, empty_row]

/-- A board where the White rook on (6,4) shields the White king on (7,4)
from the Black rook on (0,4): moving the shield away exposes the king, yet
the light rules permit it. -/
def pinned_rook_board : Board := board_of_rows
  [[none, none, none, none, some ⟨Side.b, Kind.r⟩, none, none, none],
   empty_row, empty_row, empty_row, empty_row, empty_row,
   [none, none, none, none, some ⟨Side.w, Kind.r⟩, none, none, none],
   [none, none, none, none, some ⟨Side.w, Kind.k⟩, none, none, none]]

/-- A board staging the en-passant shape: the White pawn on (3,4) stands
beside a Black pawn on (3,3) that has just advanced two squares, so a real
en-passant target would be the empty square (2,3). -/
def en_passant_board : Board := board_of_rows
  [empty_row, empty_row, empty_row,
   [none, none, none, some ⟨Side.b, Kind.p⟩, some ⟨Side.w, Kind.p⟩, none, none, none],
   empty_row, empty_row, empty_row, empty_row]
lemma in_bounds_iff (r c : Int) :
    in_bounds r c = true ↔ 0 ≤ r ∧ r < 8 ∧ 0 ≤ c ∧ c < 8 := by
  simp [in_bounds]

lemma step_of_mem (d : Int) : step_of d = 0 ∨ step_of d = 1 ∨ step_of d = -1 := by
  unfold step_of
  split_ifs <;> simp

lemma step_of_mul (d : Int) : (d.natAbs : Int) * step_of d = d := by
  unfold step_of
  split_ifs with h1 h2
  · rw [mul_zero]; omega
  · rw [mul_one]; omega
  · rw [mul_neg_one]; omega

/-- Index shift for walks: a property holds at the first `k + 1` squares of a
walk exactly when it holds at the start square and at the first `k` squares
of the walk advanced by one step. -/
lemma forall_lt_succ_shift (P : Int → Int → Prop) (r c step_r step_c : Int) (k : Nat) :
    (∀ i : Nat, i < k + 1 → P (r + (i : Int) * step_r) (c + (i : Int) * step_c)) ↔
      P r c ∧ ∀ i : Nat, i < k →
        P (r + step_r + (i : Int) * step_r) (c + step_c + (i : Int) * step_c) := by
  constructor
  · intro h
    refine ⟨by simpa using h 0 (Nat.succ_pos k), fun i hi => ?_⟩
    have h' := h (i + 1) (by omega)
    have e1 : r + ((i : Int) + 1) * step_r = r + step_r + (i : Int) * step_r := by ring
    have e2 : c + ((i : Int) + 1) * step_c = c + step_c + (i : Int) * step_c := by ring
    push_cast at h'
    rwa [e1, e2] at h'
  · rintro ⟨h0, h⟩ i hi
    rcases i with _ | j
    · simpa using h0
    · have h' := h j (by omega)
      have e1 : r + step_r + (j : Int) * step_r = r + ((j : Int) + 1) * step_r := by ring
      have e2 : c + step_c + (j : Int) * step_c = c + ((j : Int) + 1) * step_c := by ring
      rw [e1, e2] at h'
      push_cast
      exact h'

/-- Correctness of the embedded `while` loop of `is_path_clear`: started `k`
steps away from the destination along an in-bounds walk, with enough fuel,
it returns whether every square it visits before the destination is empty. -/
lemma is_path_clear_go_spec (board : Board) (r1 c1 step_r step_c : Int) (k : Nat)
    (hstep : k ≠ 0 → ¬(step_r = 0 ∧ step_c = 0)) :
    ∀ (fuel : Nat) (r c : Int), k < fuel →
      r1 = r + (k : Int) * step_r → c1 = c + (k : Int) * step_c →
      (∀ i : Nat, i < k → in_bounds (r + (i : Int) * step_r) (c + (i : Int) * step_c) = true) →
      is_path_clear_go board r1 c1 step_r step_c r c fuel =
        some (decide (∀ i : Nat, i < k →
          board (r + (i : Int) * step_r) (c + (i : Int) * step_c) = none)) := by
  induction k with
  | zero =>
    intro fuel r c hf hr hc _
    obtain ⟨fuel, rfl⟩ : ∃ m, fuel = m + 1 := ⟨fuel - 1, by omega⟩
    simp only [is_path_clear_go]
    rw [if_pos ⟨by omega, by omega⟩]
    simp
  | succ k ih =>
    intro fuel r c hf hr hc hib
    obtain ⟨fuel, rfl⟩ : ∃ m, fuel = m + 1 := ⟨fuel - 1, by omega⟩
    simp only [is_path_clear_go]
    have hstep' : ¬(step_r = 0 ∧ step_c = 0) := hstep (Nat.succ_ne_zero k)
    have hkr : r1 = r + ((k : Int) + 1) * step_r := by push_cast at hr; exact hr
    have hkc : c1 = c + ((k : Int) + 1) * step_c := by push_cast at hc; exact hc
    have hk1 : ((k : Int) + 1) ≠ 0 := by omega
    have hne : ¬(r = r1 ∧ c = c1) := by
      rintro ⟨h1, h2⟩
      apply hstep'
      constructor
      · have h0 : ((k : Int) + 1) * step_r = 0 := by rw [← h1] at hkr; linarith
        exact (mul_eq_zero.mp h0).resolve_left hk1
      · have h0 : ((k : Int) + 1) * step_c = 0 := by rw [← h2] at hkc; linarith
        exact (mul_eq_zero.mp h0).resolve_left hk1
    rw [if_neg hne]
    have hb0 : in_bounds r c = true := by simpa using hib 0 (Nat.succ_pos k)
    rw [hb0, if_pos rfl]
    rcases hbc : board r c with _ | piece
    · simp only [Option.isSome_none, Bool.false_eq_true, if_false]
      rw [ih (fun _ => hstep') fuel (r + step_r) (c + step_c) (by omega)
        (by rw [hkr]; ring) (by rw [hkc]; ring)
        ((forall_lt_succ_shift (fun a b => in_bounds a b = true) r c step_r step_c k).mp hib).2]
      apply congrArg some
      apply decide_eq_decide.mpr
      rw [forall_lt_succ_shift (fun a b => board a b = none) r c step_r step_c k]
      simp [hbc]
    · simp only [Option.isSome_some, if_pos rfl]
      apply congrArg some
      symm
      apply decide_eq_false
      intro h
      have h0 := h 0 (Nat.succ_pos k)
      simp [hbc] at h0

/-- Membership in the strictly-between square list. -/
lemma mem_path_squares_iff (r0 c0 r1 c1 : Int) (sq : Int × Int) :
    sq ∈ path_squares r0 c0 r1 c1 ↔
      ∃ i : Nat, i < max (r1 - r0).natAbs (c1 - c0).natAbs - 1 ∧
        sq = (r0 + ((i : Int) + 1) * step_of (r1 - r0),
              c0 + ((i : Int) + 1) * step_of (c1 - c0)) := by
  simp only [path_squares]
  constructor
  · intro hsq
    rw [List.mem_map] at hsq
    obtain ⟨i, hi, hEq⟩ := hsq
    rw [List.mem_range] at hi
    exact ⟨i, hi, hEq.symm⟩
  · rintro ⟨i, hi, rfl⟩
    rw [List.mem_map]
    exact ⟨i, List.mem_range.mpr hi, rfl⟩

/-- Characterization of `is_path_clear` on aligned in-bounds squares: it
terminates (result `some`) and reports exactly whether all squares strictly
between source and destination are empty. -/
lemma is_path_clear_spec (board : Board) (r0 c0 r1 c1 : Int)
    (hb0 : in_bounds r0 c0 = true) (hb1 : in_bounds r1 c1 = true)
    (halign : r1 - r0 = 0 ∨ c1 - c0 = 0 ∨ (r1 - r0).natAbs = (c1 - c0).natAbs) :
    is_path_clear board r0 c0 r1 c1 =
      some (decide (∀ sq ∈ path_squares r0 c0 r1 c1, board sq.1 sq.2 = none)) := by
  rw [in_bounds_iff] at hb0 hb1
  show is_path_clear_go board r1 c1 (step_of (r1 - r0)) (step_of (c1 - c0))
      (r0 + step_of (r1 - r0)) (c0 + step_of (c1 - c0)) 16 =
    some (decide (∀ sq ∈ path_squares r0 c0 r1 c1, board sq.1 sq.2 = none))
  have hdr : r1 - r0 = ((max (r1 - r0).natAbs (c1 - c0).natAbs : Nat) : Int) * step_of (r1 - r0) := by
    rcases halign with h | h | h
    · rw [h]; simp [step_of]
    · have hmax : max (r1 - r0).natAbs (c1 - c0).natAbs = (r1 - r0).natAbs := by
        have h0 : (c1 - c0).natAbs = 0 := by omega
        omega
      rw [hmax]; exact (step_of_mul _).symm
    · have hmax : max (r1 - r0).natAbs (c1 - c0).natAbs = (r1 - r0).natAbs := by omega
      rw [hmax]; exact (step_of_mul _).symm
  have hdc : c1 - c0 = ((max (r1 - r0).natAbs (c1 - c0).natAbs : Nat) : Int) * step_of (c1 - c0) := by
    rcases halign with h | h | h
    · have hmax : max (r1 - r0).natAbs (c1 - c0).natAbs = (c1 - c0).natAbs := by
        have h0 : (r1 - r0).natAbs = 0 := by omega
        omega
      rw [hmax]; exact (step_of_mul _).symm
    · rw [h]; simp [step_of]
    · have hmax : max (r1 - r0).natAbs (c1 - c0).natAbs = (c1 - c0).natAbs := by omega
      rw [hmax]; exact (step_of_mul _).symm
  set n : Nat := max (r1 - r0).natAbs (c1 - c0).natAbs with hn
  have hn7 : n ≤ 7 := by
    have h1 : (r1 - r0).natAbs ≤ 7 := by omega
    have h2 : (c1 - c0).natAbs ≤ 7 := by omega
    omega
  rcases Nat.eq_zero_or_pos n with hzero | hpos
  · have hr0 : r1 = r0 := by rw [hzero] at hdr; push_cast at hdr; omega
    have hc0 : c1 = c0 := by rw [hzero] at hdc; push_cast at hdc; omega
    have hsr0 : step_of (r1 - r0) = 0 := by rw [hr0, sub_self]; simp [step_of]
    have hsc0 : step_of (c1 - c0) = 0 := by rw [hc0, sub_self]; simp [step_of]
    rw [hsr0, hsc0, add_zero, add_zero]
    rw [is_path_clear_go_spec board r1 c1 0 0 0 (fun h => absurd rfl h) 16 r0 c0
      (by omega) (by rw [hr0]; ring) (by rw [hc0]; ring) (fun i hi => absurd hi (by omega))]
    apply congrArg some
    apply decide_eq_decide.mpr
    constructor
    · intro _ sq hsq
      rw [mem_path_squares_iff, ← hn, hzero] at hsq
      obtain ⟨i, hi, _⟩ := hsq
      omega
    · intro _ i hi
      omega
  · have hstepne : ¬(step_of (r1 - r0) = 0 ∧ step_of (c1 - c0) = 0) := by
      rintro ⟨h1, h2⟩
      rw [h1, mul_zero] at hdr
      rw [h2, mul_zero] at hdc
      have : n = 0 := by rw [hn]; omega
      omega
    have hcast : ((n - 1 : Nat) : Int) = (n : Int) - 1 := by omega
    have hib : ∀ i : Nat, i < n - 1 →
        in_bounds (r0 + step_of (r1 - r0) + (i : Int) * step_of (r1 - r0))
          (c0 + step_of (c1 - c0) + (i : Int) * step_of (c1 - c0)) = true := by
      intro i hi
      rw [in_bounds_iff]
      rcases step_of_mem (r1 - r0) with hsr | hsr | hsr <;>
        rcases step_of_mem (c1 - c0) with hsc | hsc | hsc <;>
        rw [hsr] at hdr ⊢ <;> rw [hsc] at hdc ⊢ <;> omega
    rw [is_path_clear_go_spec board r1 c1 (step_of (r1 - r0)) (step_of (c1 - c0)) (n - 1)
      (fun _ => hstepne) 16 (r0 + step_of (r1 - r0)) (c0 + step_of (c1 - c0))
      (by omega) (by rw [hcast]; linear_combination hdr) (by rw [hcast]; linear_combination hdc)
      hib]
    apply congrArg some
    apply decide_eq_decide.mpr
    constructor
    · intro h sq hsq
      rw [mem_path_squares_iff, ← hn] at hsq
      obtain ⟨i, hi, rfl⟩ := hsq
      have h' := h i hi
      have e1 : r0 + step_of (r1 - r0) + (i : Int) * step_of (r1 - r0) =
          r0 + ((i : Int) + 1) * step_of (r1 - r0) := by ring
      have e2 : c0 + step_of (c1 - c0) + (i : Int) * step_of (c1 - c0) =
          c0 + ((i : Int) + 1) * step_of (c1 - c0) := by ring
      rw [e1, e2] at h'
      exact h'
    · intro h i hi
      have hmem : (r0 + ((i : Int) + 1) * step_of (r1 - r0),
          c0 + ((i : Int) + 1) * step_of (c1 - c0)) ∈ path_squares r0 c0 r1 c1 := by
        rw [mem_path_squares_iff, ← hn]
        exact ⟨i, hi, rfl⟩
      have h' := h _ hmem
      have e1 : r0 + step_of (r1 - r0) + (i : Int) * step_of (r1 - r0) =
          r0 + ((i : Int) + 1) * step_of (r1 - r0) := by ring
      have e2 : c0 + step_of (c1 - c0) + (i : Int) * step_of (c1 - c0) =
          c0 + ((i : Int) + 1) * step_of (c1 - c0) := by ring
      rw [e1, e2]
      exact h'

/-- The friendly-occupant test of `legal_move_basic`, as a proposition. -/
lemma friendly_test_iff (board : Board) (s : Side) (dr dc : Int) :
    ((match board dr dc with
      | some t => decide (t.side = s)
      | none => false) = true) ↔ ∃ q, board dr dc = some q ∧ q.side = s := by
  rcases h : board dr dc with _ | q <;> simp [h]

/-- Totality of `legal_move_basic`: every branch that can be reached from
in-bounds arguments produces a verdict (`some`); in particular every
`is_path_clear` call it makes is on aligned squares and terminates. -/
lemma legal_move_basic_total (board : Board) (sr sc dr dc : Int)
    (hs : in_bounds sr sc = true) (hd : in_bounds dr dc = true) :
    ∃ v, legal_move_basic board (sr, sc) (dr, dc) = some v := by
  unfold legal_move_basic
  dsimp only
  rw [hd, if_pos rfl]
  rcases hp : board sr sc with _ | piece
  · exact ⟨false, rfl⟩
  · obtain ⟨s, kd⟩ := piece
    dsimp only
    by_cases hfr : (match board dr dc with
        | some t => decide (t.side = s)
        | none => false) = true
    · rw [if_pos hfr]
      exact ⟨false, rfl⟩
    · rw [if_neg hfr]
      rcases kd with _ | _ | _ | _ | _ | _
      · dsimp only
        split_ifs <;> exact ⟨_, rfl⟩
      · dsimp only
        by_cases hal : dr - sr ≠ 0 ∧ dc - sc ≠ 0
        · rw [if_pos hal]; exact ⟨false, rfl⟩
        · rw [if_neg hal]
          exact ⟨_, is_path_clear_spec board sr sc dr dc hs hd (by tauto)⟩
      · exact ⟨_, rfl⟩
      · dsimp only
        by_cases hal : |dr - sr| ≠ |dc - sc|
        · rw [if_pos hal]; exact ⟨false, rfl⟩
        · rw [if_neg hal]
          push_neg at hal
          refine ⟨_, is_path_clear_spec board sr sc dr dc hs hd (Or.inr (Or.inr ?_))⟩
          rw [Int.abs_eq_natAbs, Int.abs_eq_natAbs] at hal
          exact_mod_cast hal
      · dsimp only
        by_cases hal : dr - sr = 0 ∨ dc - sc = 0 ∨ |dr - sr| = |dc - sc|
        · rw [if_pos hal]
          refine ⟨_, is_path_clear_spec board sr sc dr dc hs hd ?_⟩
          rcases hal with h | h | h
          · exact Or.inl h
          · exact Or.inr (Or.inl h)
          · refine Or.inr (Or.inr ?_)
            rw [Int.abs_eq_natAbs, Int.abs_eq_natAbs] at h
            exact_mod_cast h
        · rw [if_neg hal]; exact ⟨false, rfl⟩
      · exact ⟨_, rfl⟩

/-- C8: for every board and every king at an in-bounds source square,
`legal_move_basic` permits the move if and only if the destination is one of
the eight adjacent squares (Chebyshev distance exactly 1 from the source)
and does not hold a piece of the mover's own side. -/
theorem C8_king_moves (board : Board) (sr sc dr dc : Int) (s : Side)
    (_hs : in_bounds sr sc = true) (hd : in_bounds dr dc = true)
    (hp : board sr sc = some ⟨s, Kind.k⟩) :
    legal_move_basic board (sr, sc) (dr, dc) = some true ↔
      max |dr - sr| |dc - sc| = 1 ∧ ¬∃ q, board dr dc = some q ∧ q.side = s := by
  unfold legal_move_basic
  dsimp only
  rw [hd, if_pos rfl, hp]
  dsimp only
  by_cases hfr : ∃ q, board dr dc = some q ∧ q.side = s
  · rw [if_pos ((friendly_test_iff board s dr dc).mpr hfr)]
    simp [hfr]
  · rw [if_neg (fun h => hfr ((friendly_test_iff board s dr dc).mp h))]
    simp [hfr]

/-- Witness for C8: on the start position the White king may not step onto
its own pawn on (6,4). -/
theorem C8_king_moves_witness :
    legal_move_basic start_position (7, 4) (6, 4) = some true ↔
      max |(6 : Int) - 7| |(4 : Int) - 4| = 1 ∧
        ¬∃ q, start_position 6 4 = some q ∧ q.side = Side.w :=
  C8_king_moves start_position 7 4 6 4 Side.w (by decide) (by decide) (by decide)

/-- C9: for every board and every knight at an in-bounds source square,
`legal_move_basic` permits the move if and only if the (row, column) offset
has absolute values (1,2) or (2,1) and the destination does not hold a piece
of the mover's own side. -/
theorem C9_knight_moves (board : Board) (sr sc dr dc : Int) (s : Side)
    (_hs : in_bounds sr sc = true) (hd : in_bounds dr dc = true)
    (hp : board sr sc = some ⟨s, Kind.n⟩) :
    legal_move_basic board (sr, sc) (dr, dc) = some true ↔
      ((|dr - sr| = 1 ∧ |dc - sc| = 2) ∨ (|dr - sr| = 2 ∧ |dc - sc| = 1)) ∧
        ¬∃ q, board dr dc = some q ∧ q.side = s := by
  unfold legal_move_basic
  dsimp only
  rw [hd, if_pos rfl, hp]
  dsimp only
  by_cases hfr : ∃ q, board dr dc = some q ∧ q.side = s
  · rw [if_pos ((friendly_test_iff board s dr dc).mpr hfr)]
    simp [hfr]
  · rw [if_neg (fun h => hfr ((friendly_test_iff board s dr dc).mp h))]
    simp [hfr, Prod.ext_iff]

/-- Witness for C9: the White knight's opening jump (7,1) to (5,2). -/
theorem C9_knight_moves_witness :
    legal_move_basic start_position (7, 1) (5, 2) = some true ↔
      ((|(5 : Int) - 7| = 1 ∧ |(2 : Int) - 1| = 2) ∨
        (|(5 : Int) - 7| = 2 ∧ |(2 : Int) - 1| = 1)) ∧
        ¬∃ q, start_position 5 2 = some q ∧ q.side = Side.w :=
  C9_knight_moves start_position 7 1 5 2 Side.w (by decide) (by decide) (by decide)

/-- C2 (amended): for every board and every pawn at an in-bounds source
square, a diagonal move one square forward-left or forward-right to an
in-bounds destination is permitted by `legal_move_basic` if and only if an
enemy piece occupies the destination.  (`legal_move_basic` implements no en
passant: an empty destination is never capturable, even when it would be the
en-passant target square.) -/
theorem C2_pawn_diagonal (board : Board) (sr sc dr dc : Int) (s : Side)
    (_hs : in_bounds sr sc = true) (hd : in_bounds dr dc = true)
    (hp : board sr sc = some ⟨s, Kind.p⟩)
    (hdiag : |dc - sc| = 1) (hdir : dr - sr = pawn_dir s) :
    legal_move_basic board (sr, sc) (dr, dc) = some true ↔
      ∃ q, board dr dc = some q ∧ q.side ≠ s := by
  unfold legal_move_basic
  dsimp only
  rw [hd, if_pos rfl, hp]
  dsimp only
  by_cases hfr : ∃ q, board dr dc = some q ∧ q.side = s
  · rw [if_pos ((friendly_test_iff board s dr dc).mpr hfr)]
    obtain ⟨q, hq, hqs⟩ := hfr
    simp [hq, hqs]
  · rw [if_neg (fun h => hfr ((friendly_test_iff board s dr dc).mp h))]
    rw [show (if s = Side.w then (-1 : Int) else 1) = pawn_dir s from rfl]
    rw [if_neg (show ¬dc - sc = 0 from fun h0 => by rw [h0] at hdiag; simp at hdiag),
      if_pos ⟨hdiag, hdir⟩]
    rcases hq : board dr dc with _ | q
    · simp [hq]
    · have hqs : q.side ≠ s := fun h => hfr ⟨q, hq, h⟩
      simp [hq, hqs]

/-- Witness for C2 (amended): the White pawn on (6,4) may not capture onto
the empty square (5,5) of the start position. -/
theorem C2_pawn_diagonal_witness :
    legal_move_basic start_position (6, 4) (5, 5) = some true ↔
      ∃ q, start_position 5 5 = some q ∧ q.side ≠ Side.w :=
  C2_pawn_diagonal start_position 6 4 5 5 Side.w (by decide) (by decide) (by decide)
    (by decide) (by decide)

/-- Counterexample for C2 as stated: on `en_passant_board` the Black pawn on
(3,3) has just made the two-square advance that would set the en-passant
target to (2,3), yet `legal_move_basic` rejects the White pawn's diagonal
move (3,4) to (2,3) because the destination square is empty — the claimed
"or the destination equals the en-passant target" disjunct does not hold of
this code. -/
theorem C2_counterexample :
    ¬(legal_move_basic en_passant_board (3, 4) (2, 3) = some true ↔
        ((∃ q, en_passant_board 2 3 = some q ∧ q.side ≠ Side.w) ∨
          ((2, 3) : Int × Int) = (2, 3))) := by
  intro h
  have h2 := h.mpr (Or.inr rfl)
  rw [show legal_move_basic en_passant_board (3, 4) (2, 3) = some false from by decide] at h2
  exact absurd h2 (by simp)

/-- C4: for every board and every pawn of side `s` at an in-bounds source
square, a non-capturing forward move (same file, in-bounds destination) is
permitted by `legal_move_basic` if and only if it is one square forward to an
empty destination, or two squares forward from the pawn's starting rank with
both the intermediate and destination squares empty. -/
theorem C4_pawn_forward (board : Board) (sr sc dr dc : Int) (s : Side)
    (_hs : in_bounds sr sc = true) (hd : in_bounds dr dc = true)
    (hp : board sr sc = some ⟨s, Kind.p⟩) (hfile : dc = sc) :
    legal_move_basic board (sr, sc) (dr, dc) = some true ↔
      (dr - sr = pawn_dir s ∧ board dr dc = none) ∨
      (sr = pawn_start_row s ∧ dr - sr = 2 * pawn_dir s ∧
        board (sr + pawn_dir s) dc = none ∧ board dr dc = none) := by
  unfold legal_move_basic
  dsimp only
  rw [hd, if_pos rfl, hp]
  dsimp only
  by_cases hfr : ∃ q, board dr dc = some q ∧ q.side = s
  · rw [if_pos ((friendly_test_iff board s dr dc).mpr hfr)]
    obtain ⟨q, hq, _⟩ := hfr
    simp [hq]
  · rw [if_neg (fun h => hfr ((friendly_test_iff board s dr dc).mp h))]
    rw [show (if s = Side.w then (-1 : Int) else 1) = pawn_dir s from rfl]
    rw [show (if s = Side.w then (6 : Int) else 1) = pawn_start_row s from rfl]
    rw [if_pos (show dc - sc = 0 by omega)]
    split_ifs with h1 h2
    · exact ⟨fun _ => Or.inl h1, fun _ => rfl⟩
    · exact ⟨fun _ => Or.inr h2, fun _ => rfl⟩
    · constructor
      · intro h
        exact absurd h (by simp)
      · rintro (hcase | hcase)
        · exact absurd hcase h1
        · exact absurd hcase h2

/-- Witness for C4: both opening advances of the White pawn on (6,4), and
their side conditions, on the start position. -/
theorem C4_pawn_forward_witness :
    legal_move_basic start_position (6, 4) (4, 4) = some true ↔
      ((4 : Int) - 6 = pawn_dir Side.w ∧ start_position 4 4 = none) ∨
      ((6 : Int) = pawn_start_row Side.w ∧ (4 : Int) - 6 = 2 * pawn_dir Side.w ∧
        start_position (6 + pawn_dir Side.w) 4 = none ∧ start_position 4 4 = none) :=
  C4_pawn_forward start_position 6 4 4 4 Side.w (by decide) (by decide) (by decide) (by decide)

/-- C3: for every board and every rook, bishop, or queen at an in-bounds
source square, `legal_move_basic` permits a move to an in-bounds destination
if and only if source and destination are aligned appropriately for the
kind, every square strictly between them is empty, and the destination does
not hold a piece of the mover's own side. -/
theorem C3_slider_moves (board : Board) (sr sc dr dc : Int) (s : Side) (kd : Kind)
    (hk : kd = Kind.r ∨ kd = Kind.b ∨ kd = Kind.q)
    (hs : in_bounds sr sc = true) (hd : in_bounds dr dc = true)
    (hp : board sr sc = some ⟨s, kd⟩) :
    legal_move_basic board (sr, sc) (dr, dc) = some true ↔
      slider_aligned kd (sr, sc) (dr, dc) ∧
        (∀ sq ∈ path_squares sr sc dr dc, board sq.1 sq.2 = none) ∧
        ¬∃ q, board dr dc = some q ∧ q.side = s := by
  unfold legal_move_basic
  dsimp only
  rw [hd, if_pos rfl, hp]
  dsimp only
  by_cases hfr : ∃ q, board dr dc = some q ∧ q.side = s
  · rw [if_pos ((friendly_test_iff board s dr dc).mpr hfr)]
    simp [hfr]
  · rw [if_neg (fun h => hfr ((friendly_test_iff board s dr dc).mp h))]
    rcases hk with rfl | rfl | rfl
    · dsimp only [slider_aligned]
      by_cases hal : dr - sr = 0 ∨ dc - sc = 0
      · rw [if_neg (by tauto)]
        rw [is_path_clear_spec board sr sc dr dc hs hd (by tauto)]
        simp only [Option.some.injEq, decide_eq_true_eq]
        constructor
        · intro h
          refine ⟨?_, h, hfr⟩
          rcases hal with h0 | h0
          · left; omega
          · right; omega
        · rintro ⟨-, h, -⟩
          exact h
      · rw [if_pos (by tauto)]
        constructor
        · intro h
          exact absurd h (by simp)
        · rintro ⟨hA, -, -⟩
          push_neg at hal
          rcases hA with h0 | h0 <;> omega
    · dsimp only [slider_aligned]
      by_cases hal : |dr - sr| = |dc - sc|
      · rw [if_neg (fun h => h hal)]
        have hnat : (dr - sr).natAbs = (dc - sc).natAbs := by
          rw [Int.abs_eq_natAbs, Int.abs_eq_natAbs] at hal
          exact_mod_cast hal
        rw [is_path_clear_spec board sr sc dr dc hs hd (Or.inr (Or.inr hnat))]
        simp only [Option.some.injEq, decide_eq_true_eq]
        constructor
        · intro h
          exact ⟨hal, h, hfr⟩
        · rintro ⟨-, h, -⟩
          exact h
      · rw [if_pos hal]
        constructor
        · intro h
          exact absurd h (by simp)
        · rintro ⟨hA, -, -⟩
          exact (hal hA).elim
    · dsimp only [slider_aligned]
      by_cases hal : dr - sr = 0 ∨ dc - sc = 0 ∨ |dr - sr| = |dc - sc|
      · rw [if_pos hal]
        have halign : dr - sr = 0 ∨ dc - sc = 0 ∨ (dr - sr).natAbs = (dc - sc).natAbs := by
          rcases hal with h0 | h0 | h0
          · exact Or.inl h0
          · exact Or.inr (Or.inl h0)
          · refine Or.inr (Or.inr ?_)
            rw [Int.abs_eq_natAbs, Int.abs_eq_natAbs] at h0
            exact_mod_cast h0
        rw [is_path_clear_spec board sr sc dr dc hs hd halign]
        simp only [Option.some.injEq, decide_eq_true_eq]
        constructor
        · intro h
          refine ⟨?_, h, hfr⟩
          rcases hal with h0 | h0 | h0
          · left; omega
          · right; left; omega
          · right; right; exact h0
        · rintro ⟨-, h, -⟩
          exact h
      · rw [if_neg hal]
        constructor
        · intro h
          exact absurd h (by simp)
        · rintro ⟨hA, -, -⟩
          exfalso
          apply hal
          rcases hA with h0 | h0 | h0
          · left; omega
          · right; left; omega
          · right; right; exact h0

/-- Witness for C3: the White queen's rook on (7,0) cannot slide to (5,0)
through its own pawn, and the side conditions say exactly that. -/
theorem C3_slider_moves_witness :
    legal_move_basic start_position (7, 0) (5, 0) = some true ↔
      slider_aligned Kind.r (7, 0) (5, 0) ∧
        (∀ sq ∈ path_squares 7 0 5 0, start_position sq.1 sq.2 = none) ∧
        ¬∃ q, start_position 5 0 = some q ∧ q.side = Side.w :=
  C3_slider_moves start_position 7 0 5 0 Side.w Kind.r (Or.inl rfl) (by decide) (by decide)
    (by decide)

/-- A same-square move is never permitted: the destination then holds the
mover itself, so the friendly-occupant test rejects it (or the square is
empty or out of bounds and the move is rejected earlier). -/
lemma legal_move_basic_self (board : Board) (x : Int × Int) :
    legal_move_basic board x x ≠ some true := by
  unfold legal_move_basic
  dsimp only
  by_cases h : in_bounds x.1 x.2 = true
  · rw [h, if_pos rfl]
    rcases hp : board x.1 x.2 with _ | piece
    · simp
    · dsimp only
      rw [if_pos (by simp)]
      simp
  · rw [if_neg (fun h2 => h h2)]
    simp

/-- C5: whenever a move attempt is rejected — `legal_move_basic` returns
false in the light-rules variant, `try_move` returns False in chess.py, or
`attempt_move` returns False in chess_engine.py — the board contents and
the side to move are exactly as they were before the attempt. -/
theorem C5_rejection_preserves_state :
    (∀ (st : LightState) (sel click : Int × Int) (which : Panel),
        legal_move_basic st.board sel click = some false →
        (light_move_click st sel click which).board = st.board ∧
        (light_move_click st sel click which).turn = st.turn) ∧
    (∀ (st : SimpleState) (src dst : Int × Int),
        (try_move st src dst).2 = false → (try_move st src dst).1 = st) ∧
    (∀ (B M : Type) (legal : B → M → Bool) (push : B → M → B) (promote : B → M → M)
        (board : B) (move : M),
        (attempt_move legal push promote board move).2 = false →
        (attempt_move legal push promote board move).1 = board) := by
  refine ⟨fun st sel click which hrej => ?_, fun st src dst h => ?_,
    fun B M legal push promote board move h => ?_⟩
  · unfold light_move_click
    split_ifs with h1 h2
    · exact ⟨rfl, rfl⟩
    · rw [hrej] at h2
      exact absurd h2 (by simp)
    · rcases hc : st.board click.1 click.2 with _ | code
      · exact ⟨rfl, rfl⟩
      · dsimp only
        split_ifs <;> exact ⟨rfl, rfl⟩
  · unfold try_move at h ⊢
    rcases hp : st.board src.1 src.2 with _ | piece
    · rfl
    · rw [hp] at h
      dsimp only at h ⊢
      split_ifs with hcond
      · rfl
      · rw [if_neg hcond] at h
        exact absurd h (by simp)
  · unfold attempt_move at h ⊢
    dsimp only at h ⊢
    by_cases h1 : legal board (if legal board move = true then move else promote board move) = true
    · rw [if_pos h1] at h
      exact absurd h (by simp)
    · rw [if_neg h1]

/-- Witness for C5: concrete rejected attempts in each of the three
variants leave the state untouched. -/
theorem C5_rejection_preserves_state_witness :
    ((light_move_click ⟨start_position, Side.w, some (0, 0)⟩ (0, 0) (0, 1) Panel.left).board =
        start_position ∧
      (light_move_click ⟨start_position, Side.w, some (0, 0)⟩ (0, 0) (0, 1) Panel.left).turn =
        Side.w) ∧
    (try_move ⟨start_position, Side.w⟩ (0, 0) (0, 1)).1 = ⟨start_position, Side.w⟩ ∧
    (attempt_move (fun (_ : Nat) (_ : Nat) => false) (fun b _ => b) (fun _ m => m) 0 0).1 = 0 :=
  ⟨C5_rejection_preserves_state.1 ⟨start_position, Side.w, some (0, 0)⟩ (0, 0) (0, 1) Panel.left
      (by decide),
   C5_rejection_preserves_state.2.1 ⟨start_position, Side.w⟩ (0, 0) (0, 1) (by decide),
   C5_rejection_preserves_state.2.2 Nat Nat (fun _ _ => false) (fun b _ => b) (fun _ m => m) 0 0
      rfl⟩

/-- C6: in the two hand-rolled variants, a successful move attempt changes
the state exactly as follows: the source square becomes empty, the
destination square holds the piece that was at the source (overwriting any
captured piece), every other board square is unchanged, and the side to move
flips to the opponent. -/
theorem C6_success_frame :
    (∀ (st : LightState) (ar ac br bc : Int) (which : Panel),
        legal_move_basic st.board (ar, ac) (br, bc) = some true →
        (light_move_click st (ar, ac) (br, bc) which).board br bc = st.board ar ac ∧
        (light_move_click st (ar, ac) (br, bc) which).board ar ac = none ∧
        (∀ r c : Int, (r, c) ≠ (ar, ac) → (r, c) ≠ (br, bc) →
          (light_move_click st (ar, ac) (br, bc) which).board r c = st.board r c) ∧
        (light_move_click st (ar, ac) (br, bc) which).turn = flip_turn st.turn) ∧
    (∀ (st : SimpleState) (ar ac br bc : Int),
        (try_move st (ar, ac) (br, bc)).2 = true →
        (try_move st (ar, ac) (br, bc)).1.board br bc = st.board ar ac ∧
        (try_move st (ar, ac) (br, bc)).1.board ar ac = none ∧
        (∀ r c : Int, (r, c) ≠ (ar, ac) → (r, c) ≠ (br, bc) →
          (try_move st (ar, ac) (br, bc)).1.board r c = st.board r c) ∧
        (try_move st (ar, ac) (br, bc)).1.turn = flip_turn st.turn) := by
  constructor
  · intro st ar ac br bc which hlegal
    have hne : ((br, bc) : Int × Int) ≠ (ar, ac) := by
      intro h
      rw [h] at hlegal
      exact legal_move_basic_self st.board (ar, ac) hlegal
    unfold light_move_click
    rw [if_neg hne, if_pos hlegal]
    refine ⟨?_, ?_, ?_, rfl⟩
    · dsimp only
      rw [if_neg hne, if_pos rfl]
    · dsimp only
      rw [if_pos rfl]
    · intro r c h1 h2
      dsimp only
      rw [if_neg h1, if_neg h2]
  · intro st ar ac br bc h
    unfold try_move at h ⊢
    rcases hp : st.board ar ac with _ | piece
    · rw [hp] at h
      exact absurd h (by simp)
    · rw [hp] at h
      dsimp only at h ⊢
      split_ifs with hcond
      · rw [if_pos hcond] at h
        exact absurd h (by simp)
      · push_neg at hcond
        have hne : ((br, bc) : Int × Int) ≠ (ar, ac) := fun h0 => hcond.2 h0.symm
        refine ⟨?_, ?_, ?_, rfl⟩
        · dsimp only
          rw [if_neg hne, if_pos rfl]
        · dsimp only
          rw [if_pos rfl]
        · intro r c h1 h2
          dsimp only
          rw [if_neg h1, if_neg h2]

/-- Witness for C6: the White pawn advance (6,4) to (5,4) in the light
variant, and the (rule-free) rook teleport (7,0) to (3,3) in chess.py. -/
theorem C6_success_frame_witness :
    ((light_move_click ⟨start_position, Side.w, some (6, 4)⟩ (6, 4) (5, 4) Panel.left).board 5 4 =
        start_position 6 4 ∧
      (light_move_click ⟨start_position, Side.w, some (6, 4)⟩ (6, 4) (5, 4) Panel.left).board 6 4 =
        none ∧
      (∀ r c : Int, (r, c) ≠ ((6 : Int), (4 : Int)) → (r, c) ≠ ((5 : Int), (4 : Int)) →
        (light_move_click ⟨start_position, Side.w, some (6, 4)⟩ (6, 4) (5, 4) Panel.left).board r c =
          start_position r c) ∧
      (light_move_click ⟨start_position, Side.w, some (6, 4)⟩ (6, 4) (5, 4) Panel.left).turn =
        flip_turn Side.w) ∧
    ((try_move ⟨start_position, Side.w⟩ (7, 0) (3, 3)).1.board 3 3 = start_position 7 0 ∧
      (try_move ⟨start_position, Side.w⟩ (7, 0) (3, 3)).1.board 7 0 = none ∧
      (∀ r c : Int, (r, c) ≠ ((7 : Int), (0 : Int)) → (r, c) ≠ ((3 : Int), (3 : Int)) →
        (try_move ⟨start_position, Side.w⟩ (7, 0) (3, 3)).1.board r c = start_position r c) ∧
      (try_move ⟨start_position, Side.w⟩ (7, 0) (3, 3)).1.turn = flip_turn Side.w) :=
  ⟨C6_success_frame.1 ⟨start_position, Side.w, some (6, 4)⟩ 6 4 5 4 Panel.left (by decide),
   C6_success_frame.2 ⟨start_position, Side.w⟩ 7 0 3 3 (by decide)⟩

/-- C7: the light-rules variant performs no check detection.  On
`king_capture_board` the White rook is permitted to move onto the Black
king's square, and the variant's move executor applies that capture; on
`pinned_rook_board` the White rook is permitted to abandon the White king to
the Black rook, after which the Black rook is permitted to capture the White
king. -/
theorem C7_no_check_detection :
    kind_of (king_capture_board 0 5) = some Kind.k ∧
    side_of (king_capture_board 0 5) = some Side.b ∧
    side_of (king_capture_board 0 0) = some Side.w ∧
    legal_move_basic king_capture_board (0, 0) (0, 5) = some true ∧
    (light_move_click ⟨king_capture_board, Side.w, some (0, 0)⟩ (0, 0) (0, 5) Panel.left).board 0 5 =
      some ⟨Side.w, Kind.r⟩ ∧
    legal_move_basic pinned_rook_board (6, 4) (6, 0) = some true ∧
    legal_move_basic
      ((light_move_click ⟨pinned_rook_board, Side.w, some (6, 4)⟩ (6, 4) (6, 0) Panel.left).board)
      (0, 4) (7, 4) = some true := by
  refine ⟨by decide, by decide, by decide, by decide, by decide, by decide, by decide⟩

/-- C10: for distinct in-bounds squares sharing a rank, a file, or a
diagonal, the `is_path_clear` walk terminates having indexed only in-bounds
squares (in the embedding: it yields a verdict rather than `none`), and
`legal_move_basic` — which only calls `is_path_clear` under exactly those
conditions — is total on in-bounds arguments. -/
theorem C10_termination_totality :
    (∀ (board : Board) (sr sc dr dc : Int),
        in_bounds sr sc = true → in_bounds dr dc = true →
        ((sr, sc) : Int × Int) ≠ (dr, dc) →
        (dr - sr = 0 ∨ dc - sc = 0 ∨ |dr - sr| = |dc - sc|) →
        ∃ v, is_path_clear board sr sc dr dc = some v) ∧
    (∀ (board : Board) (sr sc dr dc : Int),
        in_bounds sr sc = true → in_bounds dr dc = true →
        ∃ v, legal_move_basic board (sr, sc) (dr, dc) = some v) := by
  constructor
  · intro board sr sc dr dc hs hd _ halign
    refine ⟨_, is_path_clear_spec board sr sc dr dc hs hd ?_⟩
    rcases halign with h | h | h
    · exact Or.inl h
    · exact Or.inr (Or.inl h)
    · refine Or.inr (Or.inr ?_)
      rw [Int.abs_eq_natAbs, Int.abs_eq_natAbs] at h
      exact_mod_cast h
  · intro board sr sc dr dc hs hd
    exact legal_move_basic_total board sr sc dr dc hs hd

/-- Witness for C10: the blocked rook file (7,0) to (5,0) of the start
position terminates with a verdict, and `legal_move_basic` yields a verdict
there too. -/
theorem C10_termination_totality_witness :
    (∃ v, is_path_clear start_position 7 0 5 0 = some v) ∧
    ∃ v, legal_move_basic start_position (7, 0) (5, 0) = some v :=
  ⟨C10_termination_totality.1 start_position 7 0 5 0 (by decide) (by decide) (by decide)
      (by decide),
   C10_termination_totality.2 start_position 7 0 5 0 (by decide) (by decide)⟩

/-- C1: on the board returned by `start_position`, the number of pairs
(src, dst) of in-bounds squares such that src holds a White piece and
`legal_move_basic` permits the move is exactly 20 (16 pawn moves and 4
knight moves). -/
theorem C1_start_position_twenty_moves : white_start_move_count = 20 := by
  unfold white_start_move_count
  rw [List.countP_flatMap]
  decide

end Chess
